import Mathlib

/-
Verification of the trust-region refinement module (rbfopt_refinement.py).

The module contains five functions operating on numpy arrays of floats:
`init_trust_region`, `get_linear_model`, `get_candidate_point`,
`get_integer_candidate`, `update_trust_region_radius`.  Real-number
arithmetic is embedded over ℚ where the computation stays rational
(sorting by distance, percentile interpolation, floor/ceil rounding, the
radius update), and over ℝ where the code takes square roots
(`get_candidate_point`, which divides by the Euclidean norm of the
gradient).  Python exceptions are embedded as `Except PyError`.
-/

namespace Rbfopt

/-- The settings bundle `RbfoptSettings`: only the fields read by this
module.  The class itself lives outside the available source; the fields
are exactly those dereferenced by rbfopt_refinement.py. -/
structure RbfoptSettings where
  min_tr_radius : ℚ
  min_dist : ℚ
  tr_acceptable_decrease_shrink : ℚ
  tr_acceptable_decrease_enlarge : ℚ
  tr_acceptable_decrease_move : ℚ

/-- The Python exception kinds relevant to this module. -/
inductive PyError where
  | assertionError
  | zeroDivisionError
  | nameError
  | linAlgError
  deriving DecidableEq

/-! ### Rational-valued vector helpers -/

/-- np.dot on two vectors of length n. -/
def dotQ {n : ℕ} (x y : Fin n → ℚ) : ℚ := ∑ i, x i * y i

/-- Squared Euclidean distance between two points.  The source computes
Euclidean distances with `scipy.spatial.distance.cdist`; since the square
root is strictly monotone on nonnegative reals, comparing (and stably
sorting by) distances is the same as comparing squared distances, which
stay rational. -/
def dist2 {n : ℕ} (c x : Fin n → ℚ) : ℚ := ∑ i, (c i - x i) ^ 2

/-- The comparison relation realized by `np.lexsort((key,))`: a stable
ascending argsort, i.e. the unique ordering of indices by the pair
(key value, index) in lexicographic order. -/
def argLe {α : Type} [LinearOrder α] (d : α → ℚ) (a b : α) : Prop :=
  d a < d b ∨ (d a = d b ∧ a ≤ b)

instance {α : Type} [LinearOrder α] (d : α → ℚ) : DecidableRel (argLe d) := fun a b => by
  unfold argLe; infer_instance

instance {α : Type} [LinearOrder α] (d : α → ℚ) : IsTotal α (argLe d) := by
  constructor
  intro a b
  rcases lt_trichotomy (d a) (d b) with hlt | heq | hgt
  · exact Or.inl (Or.inl hlt)
  · rcases le_total a b with hab | hba
    · exact Or.inl (Or.inr ⟨heq, hab⟩)
    · exact Or.inr (Or.inr ⟨heq.symm, hba⟩)
  · exact Or.inr (Or.inl hgt)

instance {α : Type} [LinearOrder α] (d : α → ℚ) : IsTrans α (argLe d) := by
  constructor
  rintro a b c (hab | ⟨hab, hab2⟩) (hbc | ⟨hbc, hbc2⟩)
  · exact Or.inl (hab.trans hbc)
  · exact Or.inl (hbc ▸ hab)
  · exact Or.inl (hab ▸ hbc)
  · exact Or.inr ⟨hab.trans hbc, hab2.trans hbc2⟩

/-! ### init_trust_region (model-set part, arbitrary dimension) -/

/-- Line 66 of the source: `dist_order = np.lexsort((dist[0],))`, a stable
ascending argsort of the distances from the center to the `k` nodes,
realized as a sort by (squared distance, index) in lexicographic order
(`List.insertionSort` computes it since the relation is total, transitive
and antisymmetric, so the sorted permutation is unique). -/
def dist_order {n k : ℕ} (center : Fin n → ℚ) (node_pos : Fin k → Fin n → ℚ) :
    List (Fin k) :=
  List.insertionSort (argLe (fun i => dist2 center (node_pos i))) (List.finRange k)

/-- Line 68 of the source: `num_to_keep = min(2*n + 1, k)`. -/
def num_to_keep (n k : ℕ) : ℕ := min (2 * n + 1) k

/-- Line 70 of the source: `model_set = dist_order[np.arange(num_to_keep)]`. -/
def model_set {n k : ℕ} (center : Fin n → ℚ) (node_pos : Fin k → Fin n → ℚ) :
    List (Fin k) :=
  (dist_order center node_pos).take (num_to_keep n k)

/-! ### init_trust_region (radius part) -/

/-- numpy.percentile with the default linear interpolation: for a sample
`a` and percentage `q` (on the 0..100 scale), sort `a` ascending, take the
fractional position `q/100 * (len(a)-1)` and linearly interpolate between
the two neighboring order statistics. -/
def npPercentile (a : List ℚ) (q : ℚ) : ℚ :=
  let s := List.insertionSort (fun x y : ℚ => x ≤ y) a
  let pos := q * ((s.length : ℚ) - 1) / 100
  let j := (⌊pos⌋).toNat
  let g := pos - ⌊pos⌋
  s.getD j 0 + g * (s.getD (j + 1) (s.getD j 0) - s.getD j 0)

/-- Lines 71-72 of the source:
`tr_radius = max(np.percentile(dist[0, model_set[1:]], 0.25), settings.min_tr_radius * 2**4)`
as a function of the list of distances from the center to the model-set
nodes other than the closest one.  Note the percentile argument in the
source is the literal `0.25` on numpy's 0..100 percentage scale. -/
def init_tr_radius (dists : List ℚ) (min_tr_radius : ℚ) : ℚ :=
  max (npPercentile dists (1 / 4)) (min_tr_radius * 2 ^ 4)

/-- init_trust_region specialized to dimension n = 1, where the Euclidean
distance from the center to a node is exactly `|center - node|` and all
quantities stay rational.  Node i has position `node_pos.getD i 0`;
lines 65-73 of the source are reproduced: compute the distances, stably
argsort them, keep the closest `min(2*1+1, k)` indices, and return them
together with `max(np.percentile(dist[model_set[1:]], 0.25), min_tr_radius * 2**4)`. -/
def init_trust_region1 (settings : RbfoptSettings) (node_pos : List ℚ) (center : ℚ) :
    List ℕ × ℚ :=
  let k := node_pos.length
  let dist : ℕ → ℚ := fun i => |center - node_pos.getD i 0|
  let order := List.insertionSort (argLe dist) (List.range k)
  let ms := order.take (num_to_keep 1 k)
  (ms, init_tr_radius ((ms.drop 1).map dist) settings.min_tr_radius)

/-! ### get_linear_model (error flow) -/

/-- Whether the name `sys` is bound in the module namespace of
rbfopt_refinement.py.  The import list of the module (source lines 12-19)
consists of the three `__future__` imports, numpy, scipy.spatial,
rbfopt_config and rbfopt_settings; `sys` is never imported. -/
def sysImported : Bool := false

/-- Lines 121-134 of the source.  The call to `np.linalg.lstsq` is the
only fallible step; it is embedded as an `Except Unit` argument holding
either the solution vector of length n+1 or a `LinAlgError` outcome.  On
success the code returns `h = x[:n]` and `b = x[-1]`.  On failure the
`except` clause executes `print(..., file=sys.stderr)` before re-raising:
evaluating the name `sys` succeeds (and the original LinAlgError is then
re-raised) only if `sys` is bound in the module; otherwise the lookup
itself raises NameError, which replaces the LinAlgError. -/
def get_linear_model {n : ℕ} (lstsq : Except Unit (Fin (n + 1) → ℚ)) :
    Except PyError ((Fin n → ℚ) × ℚ) :=
  match lstsq with
  | .ok x => .ok (fun i => x i.castSucc, x (Fin.last n))
  | .error _ => if sysImported then .error .linAlgError else .error .nameError

/-! ### get_integer_candidate -/

/-- Lines 244-250 of the source: round every integer coordinate down when
the gradient coefficient is nonnegative and up when it is negative, leave
the other coordinates unchanged, and return the rounded point together
with `np.dot(h, point - rounded)`. -/
def get_integer_candidate {n : ℕ} (h point : Fin n → ℚ) (integer_vars : Finset (Fin n)) :
    (Fin n → ℚ) × ℚ :=
  let rounded : Fin n → ℚ := fun i =>
    if i ∈ integer_vars then
      (if 0 ≤ h i then (⌊point i⌋ : ℚ) else (⌈point i⌉ : ℚ))
    else point i
  (rounded, dotQ h (fun i => point i - rounded i))

/-! ### update_trust_region_radius -/

/-- Lines 284-291 of the source.  The assert on line 284 is embedded as
an AssertionError outcome; the division on line 286 follows Python float
semantics, raising ZeroDivisionError when `model_obj_diff == 0`.
Otherwise: halve the radius when the decrease ratio is at most the shrink
threshold, else double it when the ratio is at least the enlarge
threshold, else keep it; accept the step iff the ratio is at least the
move threshold. -/
def update_trust_region_radius (settings : RbfoptSettings)
    (tr_radius model_obj_diff real_obj_diff : ℚ) : Except PyError (ℚ × Bool) :=
  if ¬ 0 ≤ tr_radius then .error .assertionError
  else if model_obj_diff = 0 then .error .zeroDivisionError
  else
    let decrease := real_obj_diff / model_obj_diff
    let new_radius :=
      if decrease ≤ settings.tr_acceptable_decrease_shrink then tr_radius * (1 / 2)
      else if settings.tr_acceptable_decrease_enlarge ≤ decrease then tr_radius * 2
      else tr_radius
    .ok (new_radius, decide (settings.tr_acceptable_decrease_move ≤ decrease))

/-! ### get_candidate_point (over ℝ, since it divides by the Euclidean
norm of the gradient) -/

/-- np.dot on two real vectors of length n. -/
def dotR {n : ℕ} (x y : Fin n → ℝ) : ℝ := ∑ i, x i * y i

/-- One coordinate of np.clip: clamp `a` into the interval from `lo` to
`hi` (numpy computes `min(max(a, lo), hi)`). -/
def clip (a lo hi : ℝ) : ℝ := min (max a lo) hi

open scoped Classical in
/-- Line 192 of the source: the mask
`(h > 0) * (start_point >= var_lower + settings.min_dist)`. -/
noncomputable def lowerLoc {n : ℕ} (settings : RbfoptSettings)
    (var_lower start_point h : Fin n → ℝ) : Finset (Fin n) :=
  Finset.univ.filter fun i =>
    0 < h i ∧ var_lower i + (settings.min_dist : ℝ) ≤ start_point i

open scoped Classical in
/-- Line 196 of the source: the mask
`(h < 0) * (start_point <= var_upper - settings.min_dist)`. -/
noncomputable def upperLoc {n : ℕ} (settings : RbfoptSettings)
    (var_upper start_point h : Fin n → ℝ) : Finset (Fin n) :=
  Finset.univ.filter fun i =>
    h i < 0 ∧ start_point i ≤ var_upper i - (settings.min_dist : ℝ)

/-- Line 191 of the source: `max_t = tr_radius/np.sqrt(np.dot(h, h))`. -/
noncomputable def stepBound0 {n : ℕ} (h : Fin n → ℝ) (tr_radius : ℝ) : ℝ :=
  tr_radius / Real.sqrt (dotR h h)

open scoped Classical in
/-- Lines 192-195 of the source: if any coordinate has a positive
gradient and is at least `min_dist` above its lower bound, cap the step
by the smallest `(start_point - var_lower) / h` over those coordinates. -/
noncomputable def stepBound1 {n : ℕ} (settings : RbfoptSettings)
    (var_lower h start_point : Fin n → ℝ) (tr_radius : ℝ) : ℝ :=
  if hL : (lowerLoc settings var_lower start_point h).Nonempty then
    min (stepBound0 h tr_radius)
      (((lowerLoc settings var_lower start_point h).image
        fun i => (start_point i - var_lower i) / h i).min' (hL.image _))
  else stepBound0 h tr_radius

open scoped Classical in
/-- Lines 196-199 of the source: the symmetric cap against the upper
bounds, applied after the lower-bound cap. -/
noncomputable def candidateStep {n : ℕ} (settings : RbfoptSettings)
    (var_lower var_upper h start_point : Fin n → ℝ) (tr_radius : ℝ) : ℝ :=
  if hU : (upperLoc settings var_upper start_point h).Nonempty then
    min (stepBound1 settings var_lower h start_point tr_radius)
      (((upperLoc settings var_upper start_point h).image
        fun i => (start_point i - var_upper i) / h i).min' (hU.image _))
  else stepBound1 settings var_lower h start_point tr_radius

/-- Lines 189-202 of the source: compute the step length, form
`candidate = np.clip(start_point - max_t * h, var_lower, var_upper)`, and
return the candidate, `np.dot(h, start_point - candidate)`, and
`np.sqrt(np.dot(h, h))`. -/
noncomputable def get_candidate_point {n : ℕ} (settings : RbfoptSettings)
    (var_lower var_upper h start_point : Fin n → ℝ) (tr_radius : ℝ) :
    (Fin n → ℝ) × ℝ × ℝ :=
  let t := candidateStep settings var_lower var_upper h start_point tr_radius
  let candidate := fun i => clip (start_point i - t * h i) (var_lower i) (var_upper i)
  (candidate, dotR h (fun i => start_point i - candidate i), Real.sqrt (dotR h h))

/-! ## Theorems -/

/-! ### Helper lemmas for get_candidate_point -/

open scoped Classical

theorem stepBound1_le_stepBound0 {n : ℕ} (s : RbfoptSettings)
    (lo h x : Fin n → ℝ) (r : ℝ) :
    stepBound1 s lo h x r ≤ stepBound0 h r := by
  unfold stepBound1
  split
  · exact min_le_left _ _
  · exact le_refl _

theorem candidateStep_le_stepBound1 {n : ℕ} (s : RbfoptSettings)
    (lo hi h x : Fin n → ℝ) (r : ℝ) :
    candidateStep s lo hi h x r ≤ stepBound1 s lo h x r := by
  unfold candidateStep
  split
  · exact min_le_left _ _
  · exact le_refl _

theorem candidateStep_le_stepBound0 {n : ℕ} (s : RbfoptSettings)
    (lo hi h x : Fin n → ℝ) (r : ℝ) :
    candidateStep s lo hi h x r ≤ stepBound0 h r :=
  le_trans (candidateStep_le_stepBound1 s lo hi h x r) (stepBound1_le_stepBound0 s lo h x r)

theorem stepBound1_le_lowerRatio {n : ℕ} {s : RbfoptSettings}
    {lo h x : Fin n → ℝ} (r : ℝ) {i : Fin n} (hi : i ∈ lowerLoc s lo x h) :
    stepBound1 s lo h x r ≤ (x i - lo i) / h i := by
  unfold stepBound1
  rw [dif_pos ⟨i, hi⟩]
  exact le_trans (min_le_right _ _) (Finset.min'_le _ _ (Finset.mem_image_of_mem _ hi))

theorem candidateStep_le_lowerRatio {n : ℕ} {s : RbfoptSettings}
    {lo hi h x : Fin n → ℝ} (r : ℝ) {i : Fin n} (hiL : i ∈ lowerLoc s lo x h) :
    candidateStep s lo hi h x r ≤ (x i - lo i) / h i :=
  le_trans (candidateStep_le_stepBound1 s lo hi h x r) (stepBound1_le_lowerRatio r hiL)

theorem candidateStep_le_upperRatio {n : ℕ} {s : RbfoptSettings}
    {lo hi h x : Fin n → ℝ} (r : ℝ) {i : Fin n} (hiU : i ∈ upperLoc s hi x h) :
    candidateStep s lo hi h x r ≤ (x i - hi i) / h i := by
  unfold candidateStep
  rw [dif_pos ⟨i, hiU⟩]
  exact le_trans (min_le_right _ _) (Finset.min'_le _ _ (Finset.mem_image_of_mem _ hiU))

theorem stepBound1_cases {n : ℕ} (s : RbfoptSettings)
    (lo h x : Fin n → ℝ) (r : ℝ) :
    stepBound1 s lo h x r = stepBound0 h r
    ∨ ∃ i ∈ lowerLoc s lo x h, stepBound1 s lo h x r = (x i - lo i) / h i := by
  unfold stepBound1
  by_cases hL : (lowerLoc s lo x h).Nonempty
  · rw [dif_pos hL]
    rcases min_cases (stepBound0 h r)
      (((lowerLoc s lo x h).image fun i => (x i - lo i) / h i).min'
        (hL.image (fun i => (x i - lo i) / h i))) with
      ⟨heq, _⟩ | ⟨heq, _⟩
    · exact Or.inl heq
    · obtain ⟨i, hiL, hival⟩ := Finset.mem_image.1
        (Finset.min'_mem ((lowerLoc s lo x h).image fun i => (x i - lo i) / h i)
          (hL.image (fun i => (x i - lo i) / h i)))
      exact Or.inr ⟨i, hiL, heq.trans hival.symm⟩
  · rw [dif_neg hL]
    exact Or.inl rfl

theorem candidateStep_cases {n : ℕ} (s : RbfoptSettings)
    (lo hi h x : Fin n → ℝ) (r : ℝ) :
    candidateStep s lo hi h x r = stepBound0 h r
    ∨ (∃ i ∈ lowerLoc s lo x h, candidateStep s lo hi h x r = (x i - lo i) / h i)
    ∨ (∃ i ∈ upperLoc s hi x h, candidateStep s lo hi h x r = (x i - hi i) / h i) := by
  unfold candidateStep
  by_cases hU : (upperLoc s hi x h).Nonempty
  · rw [dif_pos hU]
    rcases min_cases (stepBound1 s lo h x r)
      (((upperLoc s hi x h).image fun i => (x i - hi i) / h i).min'
        (hU.image (fun i => (x i - hi i) / h i))) with
      ⟨heq, _⟩ | ⟨heq, _⟩
    · rw [heq]
      rcases stepBound1_cases s lo h x r with h0 | ⟨i, hiL, hival⟩
      · exact Or.inl h0
      · exact Or.inr (Or.inl ⟨i, hiL, hival⟩)
    · obtain ⟨i, hiU, hival⟩ := Finset.mem_image.1
        (Finset.min'_mem ((upperLoc s hi x h).image fun i => (x i - hi i) / h i)
          (hU.image (fun i => (x i - hi i) / h i)))
      exact Or.inr (Or.inr ⟨i, hiU, heq.trans hival.symm⟩)
  · rw [dif_neg hU]
    rcases stepBound1_cases s lo h x r with h0 | ⟨i, hiL, hival⟩
    · exact Or.inl h0
    · exact Or.inr (Or.inl ⟨i, hiL, hival⟩)

theorem candidateStep_nonneg {n : ℕ} (s : RbfoptSettings)
    (lo hi h x : Fin n → ℝ) (r : ℝ) (hr : 0 ≤ r) (hmd : 0 ≤ s.min_dist) :
    0 ≤ candidateStep s lo hi h x r := by
  rcases candidateStep_cases s lo hi h x r with h0 | ⟨i, hiL, hival⟩ | ⟨i, hiU, hival⟩
  · rw [h0]
    exact div_nonneg hr (Real.sqrt_nonneg _)
  · rw [hival]
    have hmem := (Finset.mem_filter.1 hiL).2
    have hmd' : (0 : ℝ) ≤ (s.min_dist : ℝ) := by exact_mod_cast hmd
    apply div_nonneg _ hmem.1.le
    linarith [hmem.2]
  · rw [hival]
    have hmem := (Finset.mem_filter.1 hiU).2
    have hmd' : (0 : ℝ) ≤ (s.min_dist : ℝ) := by exact_mod_cast hmd
    rw [div_nonneg_iff]
    right
    constructor
    · linarith [hmem.2]
    · exact hmem.1.le

theorem clip_step_coord (lo hi xi hc t : ℝ) (hl : lo ≤ xi) (hu : xi ≤ hi) (ht : 0 ≤ t) :
    lo ≤ clip (xi - t * hc) lo hi
    ∧ clip (xi - t * hc) lo hi ≤ hi
    ∧ 0 ≤ hc * (xi - clip (xi - t * hc) lo hi)
    ∧ (xi - clip (xi - t * hc) lo hi) ^ 2 ≤ (t * hc) ^ 2 := by
  rcases le_or_lt 0 hc with hpos | hneg
  · have hth : 0 ≤ t * hc := mul_nonneg ht hpos
    have hu1 : xi - t * hc ≤ xi := by linarith
    have hcl : clip (xi - t * hc) lo hi = max (xi - t * hc) lo := by
      unfold clip
      exact min_eq_left (max_le (le_trans hu1 hu) (le_trans hl hu))
    rw [hcl]
    have h1 : max (xi - t * hc) lo ≤ xi := max_le hu1 hl
    have h2 : xi - t * hc ≤ max (xi - t * hc) lo := le_max_left _ _
    refine ⟨le_max_right _ _, le_trans h1 hu, mul_nonneg hpos (by linarith), ?_⟩
    apply sq_le_sq'
    · linarith
    · linarith
  · have hth : 0 ≤ -(t * hc) := by nlinarith
    have hu1 : xi ≤ xi - t * hc := by nlinarith
    have hmx : max (xi - t * hc) lo = xi - t * hc := max_eq_left (le_trans hl hu1)
    have hcl : clip (xi - t * hc) lo hi = min (xi - t * hc) hi := by
      unfold clip
      rw [hmx]
    rw [hcl]
    have h1 : xi ≤ min (xi - t * hc) hi := le_min hu1 hu
    have h2 : min (xi - t * hc) hi ≤ xi - t * hc := min_le_left _ _
    refine ⟨le_trans hl h1, min_le_right _ _, ?_, ?_⟩
    · have : xi - min (xi - t * hc) hi ≤ 0 := by linarith
      nlinarith
    · have hle : (xi - min (xi - t * hc) hi) ^ 2 ≤ (-(t * hc)) ^ 2 := by
        apply sq_le_sq'
        · simp only [neg_neg]
          linarith
        · linarith
      calc (xi - min (xi - t * hc) hi) ^ 2 ≤ (-(t * hc)) ^ 2 := hle
        _ = (t * hc) ^ 2 := by ring


/-- C1: the step length is the least element of the set consisting of
tr_radius / the gradient norm, the ratios (start - lower)/h over the
coordinates with positive gradient at least min_dist above their lower
bound, and the ratios (start - upper)/h over the coordinates with
negative gradient at least min_dist below their upper bound; the
candidate is the component-wise clamp of start - t*h into the bounds. -/
theorem get_candidate_point_step_spec {n : ℕ} (s : RbfoptSettings)
    (var_lower var_upper h start_point : Fin n → ℝ) (tr_radius : ℝ)
    (hh : 0 < dotR h h) (hr : 0 ≤ tr_radius) :
    IsLeast
      {u | u = tr_radius / Real.sqrt (dotR h h)
        ∨ (∃ i, (0 < h i ∧ var_lower i + (s.min_dist : ℝ) ≤ start_point i)
            ∧ u = (start_point i - var_lower i) / h i)
        ∨ (∃ i, (h i < 0 ∧ start_point i ≤ var_upper i - (s.min_dist : ℝ))
            ∧ u = (start_point i - var_upper i) / h i)}
      (candidateStep s var_lower var_upper h start_point tr_radius)
    ∧ (get_candidate_point s var_lower var_upper h start_point tr_radius).1
      = fun i => clip
          (start_point i
            - candidateStep s var_lower var_upper h start_point tr_radius * h i)
          (var_lower i) (var_upper i) := by
  refine ⟨⟨?_, ?_⟩, rfl⟩
  · rcases candidateStep_cases s var_lower var_upper h start_point tr_radius with
      h0 | ⟨i, hiL, hival⟩ | ⟨i, hiU, hival⟩
    · exact Or.inl h0
    · exact Or.inr (Or.inl ⟨i, (Finset.mem_filter.1 hiL).2, hival⟩)
    · exact Or.inr (Or.inr ⟨i, (Finset.mem_filter.1 hiU).2, hival⟩)
  · rintro u (hu | ⟨i, hcond, hu⟩ | ⟨i, hcond, hu⟩)
    · rw [hu]
      exact candidateStep_le_stepBound0 s var_lower var_upper h start_point tr_radius
    · rw [hu]
      exact candidateStep_le_lowerRatio tr_radius
        (Finset.mem_filter.2 ⟨Finset.mem_univ i, hcond⟩)
    · rw [hu]
      exact candidateStep_le_upperRatio tr_radius
        (Finset.mem_filter.2 ⟨Finset.mem_univ i, hcond⟩)

/-- C7: for valid inputs the candidate does not increase the linear
model, lies within tr_radius of the start point (stated via the exact
Euclidean distance) and within the bounds, and the returned model_delta
and grad_norm are h·(start - candidate) and the gradient norm. -/
theorem get_candidate_point_descent {n : ℕ} (s : RbfoptSettings)
    (var_lower var_upper h start_point : Fin n → ℝ) (tr_radius : ℝ)
    (hbl : ∀ i, var_lower i ≤ start_point i) (hbu : ∀ i, start_point i ≤ var_upper i)
    (hh : 0 < dotR h h) (hr : 0 < tr_radius) (hmd : 0 ≤ s.min_dist)
    (cand : Fin n → ℝ) (delta gnorm : ℝ)
    (hout : get_candidate_point s var_lower var_upper h start_point tr_radius
      = (cand, delta, gnorm)) :
    dotR h cand ≤ dotR h start_point
    ∧ Real.sqrt (dotR (fun i => start_point i - cand i) (fun i => start_point i - cand i))
        ≤ tr_radius
    ∧ (∀ i, var_lower i ≤ cand i ∧ cand i ≤ var_upper i)
    ∧ delta = dotR h (fun i => start_point i - cand i)
    ∧ gnorm = Real.sqrt (dotR h h) := by
  set t := candidateStep s var_lower var_upper h start_point tr_radius with hT
  have ht0 : 0 ≤ t :=
    candidateStep_nonneg s var_lower var_upper h start_point tr_radius hr.le hmd
  have hcand : cand = fun i =>
      clip (start_point i - t * h i) (var_lower i) (var_upper i) :=
    (congrArg Prod.fst hout).symm
  have hdelta : delta = dotR h (fun i => start_point i - cand i) := by
    have h1 : (get_candidate_point s var_lower var_upper h start_point tr_radius).2.1
        = delta := congrArg (fun p => p.2.1) hout
    rw [← h1, hcand]
    rfl
  have hgnorm : gnorm = Real.sqrt (dotR h h) :=
    (congrArg (fun p => p.2.2) hout).symm
  have hco : ∀ i, var_lower i ≤ cand i ∧ cand i ≤ var_upper i
      ∧ 0 ≤ h i * (start_point i - cand i)
      ∧ (start_point i - cand i) ^ 2 ≤ (t * h i) ^ 2 := by
    intro i
    simp only [hcand]
    exact clip_step_coord (var_lower i) (var_upper i) (start_point i) (h i) t
      (hbl i) (hbu i) ht0
  refine ⟨?_, ?_, fun i => ⟨(hco i).1, (hco i).2.1⟩, hdelta, hgnorm⟩
  · have hsum : 0 ≤ ∑ i, h i * (start_point i - cand i) :=
      Finset.sum_nonneg fun i _ => (hco i).2.2.1
    have hexp : ∑ i, h i * (start_point i - cand i)
        = (∑ i, h i * start_point i) - ∑ i, h i * cand i := by
      rw [← Finset.sum_sub_distrib]
      exact Finset.sum_congr rfl fun i _ => by ring
    unfold dotR
    rw [hexp] at hsum
    linarith
  · have h1 : ∀ i, (start_point i - cand i) * (start_point i - cand i)
        ≤ t ^ 2 * (h i * h i) := by
      intro i
      have := (hco i).2.2.2
      nlinarith [this]
    have h2 : dotR (fun i => start_point i - cand i) (fun i => start_point i - cand i)
        ≤ ∑ i, t ^ 2 * (h i * h i) := by
      unfold dotR
      exact Finset.sum_le_sum fun i _ => h1 i
    have h3 : ∑ i, t ^ 2 * (h i * h i) = t ^ 2 * dotR h h := by
      unfold dotR
      rw [Finset.mul_sum]
    have h4 : t ^ 2 * dotR h h ≤ (stepBound0 h tr_radius) ^ 2 * dotR h h := by
      apply mul_le_mul_of_nonneg_right _ hh.le
      exact pow_le_pow_left ht0
        (candidateStep_le_stepBound0 s var_lower var_upper h start_point tr_radius) 2
    have h5 : (stepBound0 h tr_radius) ^ 2 * dotR h h = tr_radius ^ 2 := by
      unfold stepBound0
      rw [div_pow, Real.sq_sqrt hh.le]
      exact div_mul_cancel₀ _ (ne_of_gt hh)
    have h6 : dotR (fun i => start_point i - cand i) (fun i => start_point i - cand i)
        ≤ tr_radius ^ 2 := by linarith
    calc Real.sqrt (dotR (fun i => start_point i - cand i)
          (fun i => start_point i - cand i))
        ≤ Real.sqrt (tr_radius ^ 2) := Real.sqrt_le_sqrt h6
      _ = tr_radius := Real.sqrt_sq hr.le


/-- C2: for tr_radius ≥ 0 and model_obj_diff ≠ 0, update_trust_region_radius
computes decrease = real_obj_diff / model_obj_diff and returns the radius
halved when decrease ≤ shrink threshold, doubled when the shrink condition
fails and decrease ≥ enlarge threshold, unchanged otherwise; the acceptance
flag is true iff decrease ≥ move threshold, independently of the
shrink/enlarge decision. -/
theorem update_trust_region_radius_spec (s : RbfoptSettings) (tr m r : ℚ)
    (htr : 0 ≤ tr) (hm : m ≠ 0) :
    ∃ p : ℚ × Bool,
      update_trust_region_radius s tr m r = .ok p
      ∧ (r / m ≤ s.tr_acceptable_decrease_shrink → p.1 = tr * (1 / 2))
      ∧ (¬ r / m ≤ s.tr_acceptable_decrease_shrink →
          s.tr_acceptable_decrease_enlarge ≤ r / m → p.1 = tr * 2)
      ∧ (¬ r / m ≤ s.tr_acceptable_decrease_shrink →
          ¬ s.tr_acceptable_decrease_enlarge ≤ r / m → p.1 = tr)
      ∧ (p.2 = true ↔ s.tr_acceptable_decrease_move ≤ r / m) := by
  refine ⟨((if r / m ≤ s.tr_acceptable_decrease_shrink then tr * (1 / 2)
      else if s.tr_acceptable_decrease_enlarge ≤ r / m then tr * 2 else tr),
      decide (s.tr_acceptable_decrease_move ≤ r / m)), ?_, ?_, ?_, ?_, ?_⟩
  · unfold update_trust_region_radius
    rw [if_neg (not_not_intro htr), if_neg hm]
  · intro hs; simp [hs]
  · intro hs he; simp [hs, he]
  · intro hs he; simp [hs, he]
  · simp

/-- C2 witness: a concrete run with tr_radius = 1, model_obj_diff = 10,
real_obj_diff = 5. -/
theorem update_trust_region_radius_spec_witness :
    (0 ≤ (1 : ℚ)) ∧ ((10 : ℚ) ≠ 0) ∧
    (∃ p : ℚ × Bool,
      update_trust_region_radius ⟨1, 1 / 100, 1 / 4, 3 / 4, 1 / 10⟩ 1 10 5 = .ok p
      ∧ ((5 : ℚ) / 10 ≤ (1 : ℚ) / 4 → p.1 = 1 * (1 / 2))
      ∧ (¬ (5 : ℚ) / 10 ≤ (1 : ℚ) / 4 → (3 : ℚ) / 4 ≤ (5 : ℚ) / 10 → p.1 = 1 * 2)
      ∧ (¬ (5 : ℚ) / 10 ≤ (1 : ℚ) / 4 → ¬ (3 : ℚ) / 4 ≤ (5 : ℚ) / 10 → p.1 = 1)
      ∧ (p.2 = true ↔ (1 : ℚ) / 10 ≤ (5 : ℚ) / 10)) :=
  ⟨by norm_num, by norm_num,
    update_trust_region_radius_spec ⟨1, 1 / 100, 1 / 4, 3 / 4, 1 / 10⟩ 1 10 5
      (by norm_num) (by norm_num)⟩

/-- C5: when model_obj_diff = 0, update_trust_region_radius reports the
degenerate-arithmetic condition (under Python float semantics the division
on line 286 raises ZeroDivisionError) and never returns a radius value, so
no NaN or Inf radius can propagate downstream. -/
theorem update_trust_region_radius_zero_model (s : RbfoptSettings) (tr r : ℚ)
    (htr : 0 ≤ tr) :
    update_trust_region_radius s tr 0 r = .error .zeroDivisionError := by
  unfold update_trust_region_radius
  rw [if_neg (not_not_intro htr), if_pos rfl]

/-- C5 witness: concrete run with tr_radius = 2, real_obj_diff = 3. -/
theorem update_trust_region_radius_zero_model_witness :
    (0 ≤ (2 : ℚ)) ∧
    update_trust_region_radius ⟨1, 1 / 100, 1 / 4, 3 / 4, 1 / 10⟩ 2 0 3 =
      .error .zeroDivisionError :=
  ⟨by norm_num,
    update_trust_region_radius_zero_model ⟨1, 1 / 100, 1 / 4, 3 / 4, 1 / 10⟩ 2 3
      (by norm_num)⟩

/-- C6: when the least-squares solve raises LinAlgError, get_linear_model
does not surface the LinAlgError kind: the except handler on lines 127-131
dereferences `sys`, which the module never imports, so the caller sees a
NameError instead of the documented LinAlgError. -/
theorem get_linear_model_lstsq_failure :
    get_linear_model (n := 1) (.error ()) = .error .nameError
    ∧ PyError.nameError ≠ PyError.linAlgError :=
  ⟨rfl, by decide⟩

/-- C8: get_integer_candidate floors the integer coordinates whose
gradient coefficient is nonnegative, ceils those with a negative
coefficient, passes all other coordinates through unchanged, and returns
model_delta = h · (point − rounded). -/
theorem get_integer_candidate_spec {n : ℕ} (h point : Fin n → ℚ)
    (integer_vars : Finset (Fin n)) :
    (∀ i ∈ integer_vars, 0 ≤ h i →
      (get_integer_candidate h point integer_vars).1 i = (⌊point i⌋ : ℚ))
    ∧ (∀ i ∈ integer_vars, h i < 0 →
      (get_integer_candidate h point integer_vars).1 i = (⌈point i⌉ : ℚ))
    ∧ (∀ i, i ∉ integer_vars →
      (get_integer_candidate h point integer_vars).1 i = point i)
    ∧ (get_integer_candidate h point integer_vars).2 =
        dotQ h (fun i => point i - (get_integer_candidate h point integer_vars).1 i) := by
  refine ⟨?_, ?_, ?_, rfl⟩
  · intro i hi hs
    simp [get_integer_candidate, hi, hs]
  · intro i hi hs
    simp [get_integer_candidate, hi, not_le.2 hs]
  · intro i hi
    simp [get_integer_candidate, hi]

/-- C8 witness: gradient (1, -1), point (3/2, 3/2), integer variables
both coordinates. -/
theorem get_integer_candidate_spec_witness :
    (∀ i ∈ (Finset.univ : Finset (Fin 2)),
      0 ≤ (fun j : Fin 2 => if j = 0 then (1 : ℚ) else -1) i →
      (get_integer_candidate (fun j : Fin 2 => if j = 0 then (1 : ℚ) else -1)
        (fun _ => 3 / 2) Finset.univ).1 i = (⌊(3 / 2 : ℚ)⌋ : ℚ))
    ∧ (∀ i ∈ (Finset.univ : Finset (Fin 2)),
      (fun j : Fin 2 => if j = 0 then (1 : ℚ) else -1) i < 0 →
      (get_integer_candidate (fun j : Fin 2 => if j = 0 then (1 : ℚ) else -1)
        (fun _ => 3 / 2) Finset.univ).1 i = (⌈(3 / 2 : ℚ)⌉ : ℚ))
    ∧ (∀ i, i ∉ (Finset.univ : Finset (Fin 2)) →
      (get_integer_candidate (fun j : Fin 2 => if j = 0 then (1 : ℚ) else -1)
        (fun _ => 3 / 2) Finset.univ).1 i = 3 / 2)
    ∧ (get_integer_candidate (fun j : Fin 2 => if j = 0 then (1 : ℚ) else -1)
        (fun _ => 3 / 2) Finset.univ).2 =
        dotQ (fun j : Fin 2 => if j = 0 then (1 : ℚ) else -1)
          (fun i => 3 / 2 -
            (get_integer_candidate (fun j : Fin 2 => if j = 0 then (1 : ℚ) else -1)
              (fun _ => 3 / 2) Finset.univ).1 i) :=
  get_integer_candidate_spec (fun j : Fin 2 => if j = 0 then (1 : ℚ) else -1)
    (fun _ => 3 / 2) Finset.univ

/-- C10: the model_delta returned by get_integer_candidate is always
nonnegative: the gradient-directed rounding never increases the linear
model value. -/
theorem get_integer_candidate_delta_nonneg {n : ℕ} (h point : Fin n → ℚ)
    (integer_vars : Finset (Fin n)) :
    0 ≤ (get_integer_candidate h point integer_vars).2 := by
  have hval : (get_integer_candidate h point integer_vars).2 =
      ∑ i, h i * (point i -
        (if i ∈ integer_vars then
          (if 0 ≤ h i then (⌊point i⌋ : ℚ) else (⌈point i⌉ : ℚ))
        else point i)) := rfl
  rw [hval]
  apply Finset.sum_nonneg
  intro i _
  split_ifs with hiv hs
  · exact mul_nonneg hs (by linarith [Int.floor_le (point i)])
  · push_neg at hs
    nlinarith [Int.le_ceil (point i)]
  · simp

/-- C3: the model set consists of exactly min(2n+1, k) indices, ordered by
ascending distance from the center with ties broken stably (the unique
ordering by the pair (distance, source index); comparing squared distances
is comparing distances), and every index outside the model set is at least
as far from the center as every selected one, strictly so up to the stable
tie-break. -/
theorem model_set_spec {n k : ℕ} (center : Fin n → ℚ) (node_pos : Fin k → Fin n → ℚ)
    (hk : 2 ≤ k) :
    (model_set center node_pos).length = min (2 * n + 1) k
    ∧ List.Pairwise (fun a b =>
        dist2 center (node_pos a) < dist2 center (node_pos b)
        ∨ (dist2 center (node_pos a) = dist2 center (node_pos b) ∧ a < b))
        (model_set center node_pos)
    ∧ ∀ j, j ∉ model_set center node_pos → ∀ i ∈ model_set center node_pos,
        dist2 center (node_pos i) < dist2 center (node_pos j)
        ∨ (dist2 center (node_pos i) = dist2 center (node_pos j) ∧ i < j) := by
  set d : Fin k → ℚ := fun i => dist2 center (node_pos i) with hd
  have hperm : (dist_order center node_pos).Perm (List.finRange k) :=
    List.perm_insertionSort _ _
  have hlen : (dist_order center node_pos).length = k := by
    rw [hperm.length_eq, List.length_finRange]
  have hsorted : List.Pairwise (argLe d) (dist_order center node_pos) :=
    List.sorted_insertionSort (argLe d) (List.finRange k)
  have hnodup : (dist_order center node_pos).Nodup :=
    hperm.nodup_iff.2 (List.nodup_finRange k)
  have hsplit : model_set center node_pos ++
      (dist_order center node_pos).drop (num_to_keep n k) = dist_order center node_pos :=
    List.take_append_drop _ _
  rw [← hsplit] at hsorted hnodup
  obtain ⟨hpT, hpD, hcross⟩ := List.pairwise_append.1 hsorted
  obtain ⟨hnT, hnD, hdisj⟩ := List.nodup_append.1 hnodup
  refine ⟨?_, ?_, ?_⟩
  · show (model_set center node_pos).length = min (2 * n + 1) k
    unfold model_set num_to_keep
    rw [List.length_take, hlen]
    rw [min_assoc, min_self]
  · refine (hpT.and hnT).imp ?_
    intro a b hab
    obtain ⟨hab, hne⟩ := hab
    unfold argLe at hab
    rcases hab with h1 | ⟨heq, hle⟩
    · exact Or.inl h1
    · exact Or.inr ⟨heq, lt_of_le_of_ne hle hne⟩
  · intro j hj i hi
    have hjL : j ∈ model_set center node_pos ++
        (dist_order center node_pos).drop (num_to_keep n k) := by
      rw [hsplit]
      exact hperm.mem_iff.2 (List.mem_finRange j)
    have hjD : j ∈ (dist_order center node_pos).drop (num_to_keep n k) := by
      rcases List.mem_append.1 hjL with hT | hD
      · exact absurd hT hj
      · exact hD
    have hne : i ≠ j := fun he => hdisj hi (he ▸ hjD)
    have hcij := hcross i hi j hjD
    unfold argLe at hcij
    rcases hcij with hlt | ⟨heq, hle⟩
    · exact Or.inl hlt
    · exact Or.inr ⟨heq, lt_of_le_of_ne hle hne⟩

/-- C3 witness: three 1-dimensional nodes at 0, 1, 2 with center 0. -/
theorem model_set_spec_witness :
    (2 ≤ 3)
    ∧ ((model_set (fun _ : Fin 1 => (0 : ℚ))
          (fun i : Fin 3 => fun _ : Fin 1 => ((i : ℕ) : ℚ))).length = min (2 * 1 + 1) 3
      ∧ List.Pairwise (fun a b : Fin 3 =>
          dist2 (fun _ : Fin 1 => (0 : ℚ)) (fun _ : Fin 1 => ((a : ℕ) : ℚ))
            < dist2 (fun _ : Fin 1 => (0 : ℚ)) (fun _ : Fin 1 => ((b : ℕ) : ℚ))
          ∨ (dist2 (fun _ : Fin 1 => (0 : ℚ)) (fun _ : Fin 1 => ((a : ℕ) : ℚ))
              = dist2 (fun _ : Fin 1 => (0 : ℚ)) (fun _ : Fin 1 => ((b : ℕ) : ℚ)) ∧ a < b))
          (model_set (fun _ : Fin 1 => (0 : ℚ))
            (fun i : Fin 3 => fun _ : Fin 1 => ((i : ℕ) : ℚ)))
      ∧ ∀ j, j ∉ model_set (fun _ : Fin 1 => (0 : ℚ))
            (fun i : Fin 3 => fun _ : Fin 1 => ((i : ℕ) : ℚ)) →
          ∀ i ∈ model_set (fun _ : Fin 1 => (0 : ℚ))
            (fun i : Fin 3 => fun _ : Fin 1 => ((i : ℕ) : ℚ)),
          dist2 (fun _ : Fin 1 => (0 : ℚ)) (fun _ : Fin 1 => ((i : ℕ) : ℚ))
            < dist2 (fun _ : Fin 1 => (0 : ℚ)) (fun _ : Fin 1 => ((j : ℕ) : ℚ))
          ∨ (dist2 (fun _ : Fin 1 => (0 : ℚ)) (fun _ : Fin 1 => ((i : ℕ) : ℚ))
              = dist2 (fun _ : Fin 1 => (0 : ℚ)) (fun _ : Fin 1 => ((j : ℕ) : ℚ)) ∧ i < j)) :=
  ⟨by norm_num, model_set_spec _ _ (by norm_num)⟩

/-- C4 counterexample: four 1-dimensional nodes at 0, 1, 2, 3 with center
0 and min_tr_radius = 1/100.  The model set is 0, 1, 2 and the distances
to the selected nodes other than the closest are 1 and 2.  The source
passes the literal 0.25 to np.percentile, whose percentage argument is on
the 0..100 scale, so the radius is 1 + (1/400)·(2−1) = 401/400, whereas
the 25th percentile of the same distances would give 5/4. -/
theorem init_tr_radius_percentile_cex :
    (init_trust_region1 ⟨1 / 100, 1 / 100, 1 / 4, 3 / 4, 1 / 10⟩ [0, 1, 2, 3] 0).1
        = [0, 1, 2]
    ∧ (init_trust_region1 ⟨1 / 100, 1 / 100, 1 / 4, 3 / 4, 1 / 10⟩ [0, 1, 2, 3] 0).2
        = 401 / 400
    ∧ max (npPercentile [1, 2] 25) ((1 / 100 : ℚ) * 2 ^ 4) = 5 / 4
    ∧ ((401 : ℚ) / 400) ≠ 5 / 4 := by
  refine ⟨?_, ?_, ?_, by norm_num⟩
  · norm_num [init_trust_region1, num_to_keep,
      List.insertionSort, List.orderedInsert, argLe, List.range_succ]
  · norm_num [init_trust_region1, init_tr_radius, npPercentile, num_to_keep,
      List.insertionSort, List.orderedInsert, argLe, List.range_succ]
  · norm_num [npPercentile, List.insertionSort, List.orderedInsert]

/-- C4 amended: the initial radius equals the maximum of
min_tr_radius * 2^4 and the 0.25th percentile (the literal q = 0.25 on
numpy's 0..100 percentage scale, linear interpolation) of the distances
from the center to the selected nodes other than the closest one. -/
theorem init_tr_radius_formula (settings : RbfoptSettings) (node_pos : List ℚ)
    (center : ℚ) (hk : 2 ≤ node_pos.length) :
    (init_trust_region1 settings node_pos center).2 =
      max (npPercentile
            (((init_trust_region1 settings node_pos center).1.drop 1).map
              (fun i => |center - node_pos.getD i 0|)) (1 / 4))
          (settings.min_tr_radius * 2 ^ 4) := rfl

/-- C4 amended witness: nodes 0, 1, 2, 3 and center 0. -/
theorem init_tr_radius_formula_witness :
    (2 ≤ ([0, 1, 2, 3] : List ℚ).length)
    ∧ (init_trust_region1 ⟨1 / 100, 1 / 100, 1 / 4, 3 / 4, 1 / 10⟩ [0, 1, 2, 3] 0).2 =
      max (npPercentile
            (((init_trust_region1 ⟨1 / 100, 1 / 100, 1 / 4, 3 / 4, 1 / 10⟩
                [0, 1, 2, 3] 0).1.drop 1).map
              (fun i => |(0 : ℚ) - ([0, 1, 2, 3] : List ℚ).getD i 0|)) (1 / 4))
          ((1 / 100 : ℚ) * 2 ^ 4) :=
  ⟨by norm_num, init_tr_radius_formula _ _ _ (by norm_num)⟩

/-- C9 counterexample: with min_tr_radius = 1 and shrink threshold 1/4,
the input radius 16 satisfies the invariant 16 ≥ min_tr_radius * 2^4, but
a step with decrease ratio 0 halves the radius to 8, which violates it. -/
theorem tr_radius_floor_cex :
    ((⟨1, 1 / 100, 1 / 4, 3 / 4, 1 / 10⟩ : RbfoptSettings).min_tr_radius * 2 ^ 4
      ≤ (16 : ℚ))
    ∧ update_trust_region_radius ⟨1, 1 / 100, 1 / 4, 3 / 4, 1 / 10⟩ 16 1 0 =
        .ok (8, false)
    ∧ ¬ ((⟨1, 1 / 100, 1 / 4, 3 / 4, 1 / 10⟩ : RbfoptSettings).min_tr_radius * 2 ^ 4
      ≤ 8) := by
  refine ⟨by norm_num, ?_, by norm_num⟩
  unfold update_trust_region_radius
  norm_num

/-- C9 amended: the radius returned by init_trust_region satisfies
radius ≥ min_tr_radius * 2^4, but update_trust_region_radius does not
enforce that floor: it only returns tr_radius * 1/2, tr_radius, or
tr_radius * 2 (all nonnegative), and the halved value can drop below the
floor. -/
theorem tr_radius_floor_amended :
    (∀ (s : RbfoptSettings) (node_pos : List ℚ) (center : ℚ),
        s.min_tr_radius * 2 ^ 4 ≤ (init_trust_region1 s node_pos center).2)
    ∧ (∀ (s : RbfoptSettings) (tr m r : ℚ) (p : ℚ × Bool),
        update_trust_region_radius s tr m r = .ok p →
        0 ≤ p.1 ∧ (p.1 = tr * (1 / 2) ∨ p.1 = tr ∨ p.1 = tr * 2)) := by
  constructor
  · intro s node_pos center
    simp only [init_trust_region1, init_tr_radius]
    exact le_max_right _ _
  · intro s tr m r p hp
    unfold update_trust_region_radius at hp
    by_cases htr : 0 ≤ tr
    · rw [if_neg (not_not_intro htr)] at hp
      by_cases hm : m = 0
      · rw [if_pos hm] at hp; cases hp
      · rw [if_neg hm] at hp
        injection hp with hp
        subst hp
        constructor
        · split_ifs <;> linarith
        · split_ifs with h1 h2
          · exact Or.inl rfl
          · exact Or.inr (Or.inr rfl)
          · exact Or.inr (Or.inl rfl)
    · rw [if_pos htr] at hp; cases hp

/-- C9 amended witness: the floor holds for a concrete init call with two
nodes, and a concrete radius update returns the halved radius. -/
theorem tr_radius_floor_amended_witness :
    ((⟨1, 1 / 100, 1 / 4, 3 / 4, 1 / 10⟩ : RbfoptSettings).min_tr_radius * 2 ^ 4
      ≤ (init_trust_region1 ⟨1, 1 / 100, 1 / 4, 3 / 4, 1 / 10⟩ [0, 5] 0).2)
    ∧ (0 ≤ ((8 : ℚ), false).1
      ∧ (((8 : ℚ), false).1 = 16 * (1 / 2) ∨ ((8 : ℚ), false).1 = 16
        ∨ ((8 : ℚ), false).1 = 16 * 2)) :=
  ⟨tr_radius_floor_amended.1 ⟨1, 1 / 100, 1 / 4, 3 / 4, 1 / 10⟩ [0, 5] 0,
    tr_radius_floor_amended.2 ⟨1, 1 / 100, 1 / 4, 3 / 4, 1 / 10⟩ 16 1 0 (8, false)
      (by unfold update_trust_region_radius; norm_num)⟩

/-- C1 witness: one dimension, bounds [0, 10], gradient 2, start point 5,
radius 1, min_dist 1/10. -/
theorem get_candidate_point_step_spec_witness :
    (0 < dotR (fun _ : Fin 1 => (2 : ℝ)) (fun _ : Fin 1 => (2 : ℝ)))
    ∧ (0 ≤ (1 : ℝ))
    ∧ (IsLeast
        {u | u = 1 / Real.sqrt (dotR (fun _ : Fin 1 => (2 : ℝ)) (fun _ : Fin 1 => (2 : ℝ)))
          ∨ (∃ i : Fin 1, ((0 : ℝ) < 2 ∧ (0 : ℝ) + ((1 / 10 : ℚ) : ℝ) ≤ 5)
              ∧ u = ((5 : ℝ) - 0) / 2)
          ∨ (∃ i : Fin 1, ((2 : ℝ) < 0 ∧ (5 : ℝ) ≤ 10 - ((1 / 10 : ℚ) : ℝ))
              ∧ u = ((5 : ℝ) - 10) / 2)}
        (candidateStep ⟨1 / 100, 1 / 10, 1 / 4, 3 / 4, 1 / 10⟩
          (fun _ : Fin 1 => (0 : ℝ)) (fun _ => 10) (fun _ => 2) (fun _ => 5) 1)
      ∧ (get_candidate_point ⟨1 / 100, 1 / 10, 1 / 4, 3 / 4, 1 / 10⟩
          (fun _ : Fin 1 => (0 : ℝ)) (fun _ => 10) (fun _ => 2) (fun _ => 5) 1).1
        = fun i => clip
            ((5 : ℝ) - candidateStep ⟨1 / 100, 1 / 10, 1 / 4, 3 / 4, 1 / 10⟩
              (fun _ : Fin 1 => (0 : ℝ)) (fun _ => 10) (fun _ => 2) (fun _ => 5) 1 * 2)
            0 10) :=
  ⟨by norm_num [dotR, Fin.sum_univ_one], by norm_num,
    get_candidate_point_step_spec ⟨1 / 100, 1 / 10, 1 / 4, 3 / 4, 1 / 10⟩
      (fun _ : Fin 1 => (0 : ℝ)) (fun _ => 10) (fun _ => 2) (fun _ => 5) 1
      (by norm_num [dotR, Fin.sum_univ_one]) (by norm_num)⟩

/-- C7 witness: one dimension, bounds [0, 10], gradient 2, start point 5,
radius 1, min_dist 1/10; the reported candidate triple is the function
value itself. -/
theorem get_candidate_point_descent_witness :
    (∀ _ : Fin 1, (0 : ℝ) ≤ 5) ∧ (∀ _ : Fin 1, (5 : ℝ) ≤ 10)
    ∧ (0 < dotR (fun _ : Fin 1 => (2 : ℝ)) (fun _ : Fin 1 => (2 : ℝ)))
    ∧ (0 < (1 : ℝ))
    ∧ (0 ≤ (1 / 10 : ℚ))
    ∧ (dotR (fun _ : Fin 1 => (2 : ℝ))
        (get_candidate_point ⟨1 / 100, 1 / 10, 1 / 4, 3 / 4, 1 / 10⟩
          (fun _ : Fin 1 => (0 : ℝ)) (fun _ => 10) (fun _ => 2) (fun _ => 5) 1).1
        ≤ dotR (fun _ : Fin 1 => (2 : ℝ)) (fun _ : Fin 1 => (5 : ℝ))
      ∧ Real.sqrt (dotR
          (fun i => (5 : ℝ) - (get_candidate_point ⟨1 / 100, 1 / 10, 1 / 4, 3 / 4, 1 / 10⟩
            (fun _ : Fin 1 => (0 : ℝ)) (fun _ => 10) (fun _ => 2) (fun _ => 5) 1).1 i)
          (fun i => (5 : ℝ) - (get_candidate_point ⟨1 / 100, 1 / 10, 1 / 4, 3 / 4, 1 / 10⟩
            (fun _ : Fin 1 => (0 : ℝ)) (fun _ => 10) (fun _ => 2) (fun _ => 5) 1).1 i)) ≤ 1
      ∧ (∀ i, (0 : ℝ) ≤ (get_candidate_point ⟨1 / 100, 1 / 10, 1 / 4, 3 / 4, 1 / 10⟩
            (fun _ : Fin 1 => (0 : ℝ)) (fun _ => 10) (fun _ => 2) (fun _ => 5) 1).1 i
          ∧ (get_candidate_point ⟨1 / 100, 1 / 10, 1 / 4, 3 / 4, 1 / 10⟩
            (fun _ : Fin 1 => (0 : ℝ)) (fun _ => 10) (fun _ => 2) (fun _ => 5) 1).1 i ≤ 10)
      ∧ (get_candidate_point ⟨1 / 100, 1 / 10, 1 / 4, 3 / 4, 1 / 10⟩
          (fun _ : Fin 1 => (0 : ℝ)) (fun _ => 10) (fun _ => 2) (fun _ => 5) 1).2.1
        = dotR (fun _ : Fin 1 => (2 : ℝ))
          (fun i => (5 : ℝ) - (get_candidate_point ⟨1 / 100, 1 / 10, 1 / 4, 3 / 4, 1 / 10⟩
            (fun _ : Fin 1 => (0 : ℝ)) (fun _ => 10) (fun _ => 2) (fun _ => 5) 1).1 i)
      ∧ (get_candidate_point ⟨1 / 100, 1 / 10, 1 / 4, 3 / 4, 1 / 10⟩
          (fun _ : Fin 1 => (0 : ℝ)) (fun _ => 10) (fun _ => 2) (fun _ => 5) 1).2.2
        = Real.sqrt (dotR (fun _ : Fin 1 => (2 : ℝ)) (fun _ : Fin 1 => (2 : ℝ)))) :=
  ⟨fun _ => by norm_num, fun _ => by norm_num,
    by norm_num [dotR, Fin.sum_univ_one], by norm_num, by norm_num,
    get_candidate_point_descent ⟨1 / 100, 1 / 10, 1 / 4, 3 / 4, 1 / 10⟩
      (fun _ : Fin 1 => (0 : ℝ)) (fun _ => 10) (fun _ => 2) (fun _ => 5) 1
      (fun _ => by norm_num) (fun _ => by norm_num)
      (by norm_num [dotR, Fin.sum_univ_one]) (by norm_num) (by norm_num)
      (get_candidate_point ⟨1 / 100, 1 / 10, 1 / 4, 3 / 4, 1 / 10⟩
        (fun _ : Fin 1 => (0 : ℝ)) (fun _ => 10) (fun _ => 2) (fun _ => 5) 1).1
      (get_candidate_point ⟨1 / 100, 1 / 10, 1 / 4, 3 / 4, 1 / 10⟩
        (fun _ : Fin 1 => (0 : ℝ)) (fun _ => 10) (fun _ => 2) (fun _ => 5) 1).2.1
      (get_candidate_point ⟨1 / 100, 1 / 10, 1 / 4, 3 / 4, 1 / 10⟩
        (fun _ : Fin 1 => (0 : ℝ)) (fun _ => 10) (fun _ => 2) (fun _ => 5) 1).2.2
      rfl⟩

end Rbfopt
